import Mathlib

/-!
Verification development for the maze searcher in `cows.cpp`
(solution to the decision maze from Scientific American, December 1996).

The program models a two-pencil decision maze as a finite state machine:
a configuration (`State`) holds two pencil positions, two movement flags
and the rule-60 mode flag.  A dense integer index encodes configurations,
a rule engine (`Searcher::DetermineNextStates`) computes successor
configurations, and a recursive depth-first traversal
(`Searcher::RecTraverse`) explores the state space from the start
configuration with depth-stamp memoization.

The definitions below are a shallow embedding of that program:
machine integers become `Nat`, the C++ classes become structures, and the
mutable searcher state becomes explicit state passing.  Comments point to
the corresponding places of `cows.cpp`.
-/

namespace Cows

/-! ### Codes for special maze points and paths (cows.cpp lines 28-47) -/

def GOAL_MAZEPOINT : Nat := 100
def ILLEGAL_MAZEPOINT : Nat := 101
def START_PENCIL_0 : Nat := 1
def START_PENCIL_1 : Nat := 7

def PATH_YES : Nat := 0
def PATH_NO : Nat := 1
def PATH_LUGNUT : Nat := 2
def PATH_NONE : Nat := 3

def MAZEPOINT_COUNT : Nat := 16
def MAZEPOINT : List Nat := [1, 2, 5, 7, 9, 15, 25, 26, 35, 40, 50, 55, 60, 61, 65, 75]

/-! ### The `State` class (cows.cpp lines 76-104, 231-332)

The C++ class stores each pencil internally as an index into `MAZEPOINT`
(sentinels stored as such) and converts on every access: `SetPencil`
stores `GetMazePointIndex(x)` and `Pencil` returns `MAZEPOINT[index]`.
The two conversions are inverse to each other, so we model the class by
the value of its observable interface: `pencilN` below holds exactly what
`Pencil(N)` returns, namely an element of `MAZEPOINT` or one of the two
sentinel codes.  `IllegalP`/`GoalP` compare the stored pencil against the
sentinel codes, which coincides with comparing the observable value. -/

structure State where
  pencil0 : Nat
  pencil1 : Nat
  moved0 : Bool
  moved1 : Bool
  rule60 : Bool
deriving DecidableEq

/-- State::Pencil (cows.cpp line 268).  Pencil indices are plain
naturals as in the C++ (which aborts on an index other than 0 and 1;
all call sites pass 0 or 1). -/
def pencilAt (s : State) (p : Nat) : Nat :=
  if p = 0 then s.pencil0 else s.pencil1

/-- State::MovementP (cows.cpp line 283). -/
def movedAt (s : State) (p : Nat) : Bool :=
  if p = 0 then s.moved0 else s.moved1

/-- State::SetPencil (cows.cpp line 296).  The C++ setter aborts when `x`
is neither a maze point nor a sentinel code; all call sites below pass
domain values only, so the total update models it exactly there. -/
def setPencil (s : State) (p : Nat) (x : Nat) : State :=
  if p = 0 then { s with pencil0 := x } else { s with pencil1 := x }

/-- State::SetMovement (cows.cpp line 311). -/
def setMovement (s : State) (p : Nat) (x : Bool) : State :=
  if p = 0 then { s with moved0 := x } else { s with moved1 := x }

/-- State::SetRule60 (cows.cpp line 320). -/
def setRule60 (s : State) (x : Bool) : State := { s with rule60 := x }

/-- State::IllegalP (cows.cpp line 324). -/
def illegalP (s : State) : Bool :=
  s.pencil0 == ILLEGAL_MAZEPOINT || s.pencil1 == ILLEGAL_MAZEPOINT

/-- State::GoalP (cows.cpp line 329). -/
def goalP (s : State) : Bool :=
  s.pencil0 == GOAL_MAZEPOINT || s.pencil1 == GOAL_MAZEPOINT

/-- State::GetMazePointIndex (cows.cpp line 231): position of `m` in the
`MAZEPOINT` array.  The C++ function aborts when `m` is not a maze point;
the total model returns the array length (16) there, a value that no
caller below ever produces on its actual domain. -/
def getMazePointIndex (m : Nat) : Nat := MAZEPOINT.indexOf m

/-! ### Decision predicates (cows.cpp lines 612-670) -/

/-- Searcher::HasBoxRedTextOrGreenTextP (cows.cpp line 612). -/
def hasBoxRedTextOrGreenTextP (x : Nat) : Bool :=
  x == 7 || x == 26 || x == 61 || x == 25 || x == 50 || x == 60 || x == 9 || x == 40

/-- Searcher::HasBoxGreenTextOrGreenWordP (cows.cpp line 617). -/
def hasBoxGreenTextOrGreenWordP (x : Nat) : Bool :=
  x == 60 || x == 5 || x == 25 || x == 2 || x == 65 || x == 40 || x == 1

/-- Searcher::HasBoxRedWordOrGreenWordP (cows.cpp line 622). -/
def hasBoxRedWordOrGreenWordP (x : Nat) : Bool :=
  x == 5 || x == 25 || x == 2 || x == 60 || x == 1 || x == 40 || x == 65

/-- Searcher::HasBoxOddNumberP (cows.cpp line 627). -/
def hasBoxOddNumberP (x : Nat) : Bool := x % 2 == 1

/-- Searcher::HasBoxWordWordP (cows.cpp line 631). -/
def hasBoxWordWordP (x : Nat) : Bool := x == 35 || x == 5

/-- Searcher::HasBoxMultipleOfFiveNumberP (cows.cpp line 635). -/
def hasBoxMultipleOfFiveNumberP (x : Nat) : Bool := x % 5 == 0

/-- Searcher::DoesBoxReferToCowsP (cows.cpp line 639). -/
def doesBoxReferToCowsP (x : Nat) : Bool := x == 50

/-- Searcher::GetYesPath (cows.cpp line 643).  The default branch of the
C++ switch aborts and then returns 0 to keep the compiler happy; the
total model returns that same 0. -/
def getYesPath (x : Nat) : Nat :=
  if x = 1 then 2
  else if x = 2 then 7
  else if x = 5 then 25
  else if x = 7 then 26
  else if x = 9 then 2
  else if x = 15 then 5
  else if x = 25 then 7
  else if x = 26 then 61
  else if x = 35 then 40
  else if x = 40 then 65
  else if x = 50 then GOAL_MAZEPOINT
  else if x = 55 then 15
  else if x = 60 then 25
  else if x = 61 then 1
  else if x = 65 then 75
  else if x = 75 then 1
  else 0

/-- Searcher::HasBoxIfSentenceP (cows.cpp line 668). -/
def hasBoxIfSentenceP (x : Nat) : Bool := x == 61 || x == 26 || x == 65

/-! ### The rule engine: Searcher::DetermineNextStates (cows.cpp lines 679-1046)

The C++ function writes a primary next state (`SetNextState`), optionally
an alternate next state (`SetAltNextState`, which also raises the
valid flag), and reports the path taken through the out parameter
`pathTaken`.  The functional model returns all three: `alt = some _`
exactly when the C++ called `SetAltNextState`. -/

structure RuleResult where
  next : State
  alt : Option State
  path : Nat
deriving DecidableEq

/-- The other pencil: `(chosenPencil+1)%2` (cows.cpp line 685). -/
def otherPencil (p : Nat) : Nat := (p + 1) % 2

/-- The recurring C++ idiom `next.SetPencil(chosenPencil,x);
next.SetMovement(chosenPencil,TRUE)`. -/
def moveChosen (s : State) (p : Nat) (x : Nat) : State :=
  setMovement (setPencil s p x) p true

/-- Searcher::DetermineNextStates (cows.cpp lines 679-1046), with a fuel
argument for the one self-referential rule: box 26 evaluates the rule of
the other pencil on the same current state through a recursive call
(lines 875-878).  That nested call is guarded so that it never recurses
again (its chosen pencil is checked not to sit on box 26), hence fuel 2
always suffices and the fuel-0 branch is dead code.  The C++ aborts
when the current state is illegal or a goal or the chosen box has no
rule; those switch branches are unreachable from the call sites below. -/
def determineAux : Nat → State → Nat → RuleResult
  | 0, current, _ => ⟨current, none, PATH_NONE⟩
  | fuel + 1, current, chosen =>
    -- next = current with both movement flags cleared (lines 681-684)
    let start := setMovement (setMovement current 0 false) 1 false
    let other := otherPencil chosen
    let opos := pencilAt current other
    let pos := pencilAt current chosen
    if pos = 1 then
      if hasBoxRedTextOrGreenTextP opos then ⟨moveChosen start chosen 2, none, PATH_YES⟩
      else ⟨moveChosen start chosen 9, none, PATH_NO⟩
    else if pos = 2 then
      if hasBoxGreenTextOrGreenWordP opos then ⟨moveChosen start chosen 7, none, PATH_YES⟩
      else ⟨moveChosen start chosen 15, none, PATH_NO⟩
    else if pos = 5 then
      if hasBoxRedWordOrGreenWordP opos then ⟨moveChosen start chosen 25, none, PATH_YES⟩
      else ⟨moveChosen start chosen 2, none, PATH_NO⟩
    else if pos = 7 then
      if current.rule60 then ⟨moveChosen start chosen 26, none, PATH_YES⟩
      else if hasBoxOddNumberP opos then ⟨moveChosen start chosen 26, none, PATH_YES⟩
      else ⟨moveChosen start chosen 5, none, PATH_NO⟩
    else if pos = 9 then
      if current.rule60 then ⟨moveChosen start chosen 2, none, PATH_YES⟩
      else if movedAt current other then ⟨moveChosen start chosen 2, none, PATH_YES⟩
      else ⟨moveChosen start chosen 35, none, PATH_NO⟩
    else if pos = 15 then
      if hasBoxMultipleOfFiveNumberP opos then ⟨moveChosen start chosen 5, none, PATH_YES⟩
      else ⟨moveChosen start chosen 40, none, PATH_NO⟩
    else if pos = 25 then
      if current.rule60 then ⟨moveChosen start chosen 7, none, PATH_YES⟩
      else if hasBoxRedTextOrGreenTextP opos then ⟨moveChosen start chosen 7, none, PATH_YES⟩
      else ⟨moveChosen start chosen 50, none, PATH_NO⟩
    else if pos = 26 then
      if current.rule60 then ⟨moveChosen start chosen 61, none, PATH_YES⟩
      else if opos == 26 then
        -- deadly embrace (lines 867-873): both pencils become illegal,
        -- no movement flag is raised
        ⟨setPencil (setPencil start chosen ILLEGAL_MAZEPOINT) other ILLEGAL_MAZEPOINT,
          none, PATH_NONE⟩
      else
        -- recursive evaluation of the other pencil (lines 875-890)
        if (determineAux fuel current other).path = PATH_NO then
          ⟨moveChosen start chosen 61, none, PATH_YES⟩
        else ⟨moveChosen start chosen 55, none, PATH_NO⟩
    else if pos = 35 then
      if hasBoxWordWordP opos then ⟨moveChosen start chosen 40, none, PATH_YES⟩
      else ⟨moveChosen start chosen 1, none, PATH_NO⟩
    else if pos = 40 then
      if current.rule60 then ⟨moveChosen start chosen 65, none, PATH_YES⟩
      else ⟨moveChosen start chosen 60, none, PATH_NO⟩
    else if pos = 50 then
      if current.rule60 then ⟨moveChosen start chosen GOAL_MAZEPOINT, none, PATH_YES⟩
      else if doesBoxReferToCowsP opos then
        ⟨moveChosen start chosen GOAL_MAZEPOINT, none, PATH_YES⟩
      else ⟨moveChosen start chosen 26, none, PATH_NO⟩
    else if pos = 55 then
      -- free choice (lines 961-974): primary to 15, alternate to 7
      let n := moveChosen start chosen 15
      ⟨n, some (setPencil n chosen 7), PATH_LUGNUT⟩
    else if pos = 60 then
      -- activates rule 60 (lines 975-987)
      ⟨setRule60 (moveChosen start chosen 25) true, none, PATH_YES⟩
    else if pos = 61 then
      if current.rule60 then ⟨moveChosen start chosen 1, none, PATH_YES⟩
      else
        -- cross move (lines 1001-1009): the other pencil is forced along
        -- its yes path and marked as moved
        ⟨setMovement (setPencil (moveChosen start chosen 1) other (getYesPath opos)) other true,
          none, PATH_YES⟩
    else if pos = 65 then
      -- clears rule 60 (lines 1011-1023)
      ⟨setMovement (setRule60 (setPencil start chosen 75) false) chosen true, none, PATH_YES⟩
    else if pos = 75 then
      if hasBoxIfSentenceP opos then ⟨moveChosen start chosen 1, none, PATH_YES⟩
      else ⟨moveChosen start chosen 50, none, PATH_NO⟩
    else ⟨start, none, PATH_NONE⟩

/-- Rule evaluation at the fuel that the bounded self-reference of box 26
always stays within (see `determineAux`). -/
def determineNextStates (current : State) (chosen : Nat) : RuleResult :=
  determineAux 2 current chosen

/-! ### The configuration codec (cows.cpp lines 491-534) -/

/-- Searcher::TotalStates (cows.cpp line 491): 16 * 16 * 2 * 2 * 2. -/
def totalStates : Nat := MAZEPOINT_COUNT * MAZEPOINT_COUNT * 2 * 2 * 2

/-- Searcher::ComputeIndex (cows.cpp line 511): composes, outer to inner,
pencil-0 movement, pencil-1 movement, pencil-0 maze point index,
pencil-1 maze point index, rule-60 flag. -/
def computeIndex (current : State) : Nat :=
  let r0 := 0
  let r1 := r0 * 2 + (if current.moved0 then 1 else 0)
  let r2 := r1 * 2 + (if current.moved1 then 1 else 0)
  let r3 := r2 * MAZEPOINT_COUNT + getMazePointIndex current.pencil0
  let r4 := r3 * MAZEPOINT_COUNT + getMazePointIndex current.pencil1
  r4 * 2 + (if current.rule60 then 1 else 0)

/-- Modelled from the spec: `decode(Id) -> Configuration`, the exact
inverse of `encode`.  The C++ program never decodes an index (it stores
the configuration inside each transition record); the spec postulates
the inverse, so it is reconstructed here from the digit layout of
`ComputeIndex`. -/
def decodeState (idx : Nat) : State :=
  { pencil0 := MAZEPOINT.getD (idx / 32 % 16) 0
    pencil1 := MAZEPOINT.getD (idx / 2 % 16) 0
    moved0 := idx / 1024 % 2 == 1
    moved1 := idx / 512 % 2 == 1
    rule60 := idx % 2 == 1 }

/-! ### The transition table (cows.cpp lines 142-171, 536-568)

`Searcher::EnumerateTransitions` iterates all 2048 legal configurations
and stores, at `ComputeIndex(current)`, the current state together with
the outcome of `DetermineNextStates` for each pencil.  Because
`ComputeIndex` is a bijection between legal configurations and
`[0, 2048)` (proved below), the record stored at index `i` is exactly the
one computed from the configuration decoding `i`; `space` is defined by
that tabulation.  The `visited` counter that the C++ keeps inside each
`Transition` is the only field the traversal mutates, so it lives in the
explicit search state `SearchState` below instead. -/

structure Transition where
  current : State
  next0 : State
  alt0 : Option State
  next1 : State
  alt1 : Option State
deriving DecidableEq

/-- One table record: the stored current state and the next states that
`EnumerateTransitions` computes for it (cows.cpp lines 551-559). -/
def mkTransition (current : State) : Transition :=
  let r0 := determineNextStates current 0
  let r1 := determineNextStates current 1
  ⟨current, r0.next, r0.alt, r1.next, r1.alt⟩

/-- The fully built transition table, as a tabulated function from the
dense index (see the section comment above). -/
def space (idx : Nat) : Transition := mkTransition (decodeState idx)

/-! ### The traversal: Searcher::RecTraverse (cows.cpp lines 1052-1122)

The recursion mutates, besides the per-record `visited` depth stamps, a
running maximum depth, and it reports events on the diagnostic streams:
"Illegal state encountered" and "Goal state encountered at depth".  The
model gathers all of that in an explicit `SearchState`:

  * `visited` packs the 2048 depth stamps into one natural number, twelve
    bits per record (every stamp the traversal can store fits, since
    depths never exceed 2049, as proved below);
  * `illegalDepths` and `goalDepths` collect the depths at which the two
    kinds of events are reported (most recent first);
  * `writeLog` is ghost instrumentation recording every `SetVisited`
    call as (index, previous stamp, new depth), most recent first, so
    that claims about the mutation discipline of the stamps can be
    stated; it affects nothing else.

The bounded `stackTrace` buffer of the C++ (lines 1081-1083) records the
states of the current path purely for the diagnostic dump attached to
goal reports (`DumpStackTrace`); it is never read by the algorithm and
is not modelled.

Recursion depth is modelled by fuel: `recTraverse 0 _ _ _ = none` means
the fuel ran out, and the termination theorem below shows that fuel 2050
is never exhausted (the C++ recursion depth is bounded the same way). -/

structure SearchState where
  visited : Nat
  maxDepth : Nat
  illegalDepths : List Nat
  goalDepths : List Nat
  writeLog : List (Nat × Nat × Nat)
deriving DecidableEq

/-- Field width of one packed depth stamp. -/
def FIELD : Nat := 4096

/-- Read the depth stamp of record `i` (Transition::Visited). -/
def vget (v i : Nat) : Nat := v / FIELD ^ i % FIELD

/-- Overwrite the depth stamp of record `i` with `d` (Transition::SetVisited). -/
def vset (v i d : Nat) : Nat :=
  (v / FIELD ^ (i + 1) * FIELD + d) * FIELD ^ i + v % FIELD ^ i

/-- The state written by a non-pruned visit of record `index` at `depth`
(cows.cpp lines 1076-1079 plus the ghost write log). -/
def visitMark (st : SearchState) (index depth : Nat) : SearchState :=
  { st with
    visited := vset st.visited index depth
    maxDepth := if st.maxDepth < depth then depth else st.maxDepth
    writeLog := (index, vget st.visited index, depth) :: st.writeLog }

/-- The branches that the visit loop of `RecTraverse` dispatches, in
order (cows.cpp lines 1085-1120): for each pencil the primary next state
and then, when its valid flag is set, the alternate next state. -/
def branchList (t : Transition) : List State :=
  [t.next0] ++ (match t.alt0 with | some a => [a] | none => [])
    ++ [t.next1] ++ (match t.alt1 with | some a => [a] | none => [])

/-- The body of the visit loop of `RecTraverse` (cows.cpp lines
1085-1120), sequentially dispatching the branch states: an illegal
branch reports an illegal event and returns from the whole visit (the
C++ `return` at line 1089), a goal branch reports a goal event and
returns from the whole visit (line 1096), any other branch recurses at
depth + 1 through `f` and the loop continues.  `f` is the recursive
call `RecTraverse` at the remaining fuel. -/
def recBranches (f : Nat → Nat → SearchState → Option SearchState) :
    List State → Nat → SearchState → Option SearchState
  | [], _, st => some st
  | b :: rest, depth, st =>
    if illegalP b then some { st with illegalDepths := depth :: st.illegalDepths }
    else if goalP b then some { st with goalDepths := depth :: st.goalDepths }
    else
      match f (computeIndex b) (depth + 1) st with
      | none => none
      | some st1 => recBranches f rest depth st1

/-- Searcher::RecTraverse (cows.cpp lines 1070-1122): prune when the
record was already seen at the current depth or shallower, otherwise
stamp the record with the current depth and dispatch the branches. -/
def recTraverse : Nat → Nat → Nat → SearchState → Option SearchState
  | 0, _, _, _ => none
  | fuel + 1, index, depth, st =>
    if 0 < vget st.visited index ∧ vget st.visited index ≤ depth then some st
    else
      recBranches (fun i d s => recTraverse fuel i d s)
        (branchList (space index)) depth (visitMark st index depth)

/-- The all-zero depth stamps and empty report of a fresh searcher
(Transition::Transition sets visited = 0, cows.cpp line 369;
maxDepth = 0 at cows.cpp line 1062). -/
def initialSearchState : SearchState := ⟨0, 0, [], [], []⟩

/-- The start configuration of Searcher::StartTraversal (cows.cpp lines
1061-1064): pencil 0 on box 1, pencil 1 on box 7, nothing moved, rule 60
inactive (the State constructor clears the flags, lines 244-250). -/
def startState : State :=
  { pencil0 := START_PENCIL_0, pencil1 := START_PENCIL_1
    moved0 := false, moved1 := false, rule60 := false }

/-- Searcher::StartTraversal (cows.cpp lines 1052-1068): run the
traversal from the start configuration at depth 1.  Fuel 2050 is enough
for every start configuration by the termination theorem below. -/
def startTraversal : Option SearchState :=
  recTraverse 2050 (computeIndex startState) 1 initialSearchState

/-! ### Derived per-record visit classification

A non-pruned visit of a record dispatches its branches in order until the
first branch that is an event (illegal or goal), which aborts the visit;
the branches before that first event are exactly the ones the visit
recurses into. -/

/-- Is this branch an event (illegal or goal) that aborts the visit? -/
def isEventBranch (b : State) : Bool := illegalP b || goalP b

/-- The indices a non-pruned visit of record `idx` recurses into: the
branches before the first event branch. -/
def prefixSucc (idx : Nat) : List Nat :=
  ((branchList (space idx)).takeWhile (fun b => !isEventBranch b)).map computeIndex

/-- The first event branch of a visit of `idx`, when there is one. -/
def eventOfVisit (idx : Nat) : Option State :=
  ((branchList (space idx)).dropWhile (fun b => !isEventBranch b)).head?

/-- A visit of `idx` reports a goal event (its first event branch is a
goal, reached before any illegal branch). -/
def goalFirst (idx : Nat) : Bool :=
  match eventOfVisit idx with
  | some b => !illegalP b && goalP b
  | none => false

/-- A visit of `idx` reports an illegal-state event. -/
def illegalFirst (idx : Nat) : Bool :=
  match eventOfVisit idx with
  | some b => illegalP b
  | none => false

/-! ### Invariants of the traversal

These predicates describe the search state during the recursion; they
are the induction load of the termination and report theorems below. -/

/-- Every depth below `depth` is the stamp of some record: the ancestors
of a depth-`depth` call keep their stamps, so the depths 1, ..., depth-1
all occur.  This bounds the recursion depth by pigeonhole. -/
def seenAll (v depth : Nat) : Prop :=
  ∀ d, 1 ≤ d → d < depth → ∃ i, i < 2048 ∧ vget v i = d

/-- Stamps with value in [1, depth] survive a subtree rooted at `depth`
(deeper calls only write deeper or strictly smaller overwrites, never
touching values up to the root depth). -/
def preservesLe (v w depth : Nat) : Prop :=
  ∀ i, 0 < vget v i → vget v i ≤ depth → vget w i = vget v i

/-- Once stamped, a record never returns to the unvisited stamp 0. -/
def writtenMono (v w : Nat) : Prop := ∀ i, 0 < vget v i → 0 < vget w i

/-- Every stamped record outside the pending (currently open) visits has
all its pre-event branches stamped: depth-first completeness. -/
def doneExcept (v : Nat) (pend : List Nat) : Prop :=
  ∀ j, j < 2048 → 0 < vget v j → j ∈ pend ∨ ∀ k ∈ prefixSucc j, 0 < vget v k

/-- Every stamped record outside the pending visits whose visit reports
a goal event has already put that event in the report. -/
def goalInv (v : Nat) (gd : List Nat) (pend : List Nat) : Prop :=
  ∀ j, j < 2048 → 0 < vget v j → j ∉ pend → goalFirst j = true → gd ≠ []

/-- Every logged stamp write either hit an unvisited record or strictly
lowered the stamp. -/
def logGood (log : List (Nat × Nat × Nat)) : Prop :=
  ∀ e ∈ log, e.2.1 = 0 ∨ e.2.2 < e.2.1

/-! ### Arithmetic of the packed stamp vector -/

theorem pow_FIELD_pos (i : Nat) : 0 < FIELD ^ i := Nat.pos_pow_of_pos i (by decide)

theorem vget_zero (i : Nat) : vget 0 i = 0 := by simp [vget]

theorem vget_lt (v i : Nat) : vget v i < FIELD :=
  Nat.mod_lt _ (by decide)

theorem vget_vset_self (v i d : Nat) (hd : d < FIELD) : vget (vset v i d) i = d := by
  unfold vget vset
  have hpos : 0 < FIELD ^ i := pow_FIELD_pos i
  have hL : v % FIELD ^ i < FIELD ^ i := Nat.mod_lt _ hpos
  have h1 : (v / FIELD ^ (i + 1) * FIELD + d) * FIELD ^ i + v % FIELD ^ i
      = v % FIELD ^ i + FIELD ^ i * (v / FIELD ^ (i + 1) * FIELD + d) := by ring
  rw [h1, Nat.add_mul_div_left _ _ hpos, Nat.div_eq_of_lt hL, Nat.zero_add,
    show v / FIELD ^ (i + 1) * FIELD + d = d + v / FIELD ^ (i + 1) * FIELD from by ring,
    Nat.add_mul_mod_self_right, Nat.mod_eq_of_lt hd]

theorem vget_vset_lt {i j : Nat} (v d : Nat) (h : j < i) :
    vget (vset v i d) j = vget v j := by
  obtain ⟨k, rfl⟩ : ∃ k, i = j + (k + 1) := ⟨i - j - 1, by omega⟩
  unfold vget vset
  have hpos : 0 < FIELD ^ j := pow_FIELD_pos j
  have hsplit : FIELD ^ (j + (k + 1)) = FIELD ^ j * (FIELD ^ k * FIELD) := by
    rw [pow_add, pow_succ]
  set A := v / FIELD ^ (j + (k + 1) + 1) * FIELD + d with hA
  have h1 : A * FIELD ^ (j + (k + 1)) + v % FIELD ^ (j + (k + 1))
      = v % FIELD ^ (j + (k + 1)) + FIELD ^ j * (A * (FIELD ^ k * FIELD)) := by
    rw [hsplit]; ring
  have h2 : v = v % FIELD ^ (j + (k + 1))
      + FIELD ^ j * (v / FIELD ^ (j + (k + 1)) * (FIELD ^ k * FIELD)) := by
    conv_lhs => rw [← Nat.div_add_mod v (FIELD ^ (j + (k + 1)))]
    rw [hsplit]; ring
  rw [h1, Nat.add_mul_div_left _ _ hpos]
  conv_rhs => rw [h2, Nat.add_mul_div_left _ _ hpos]
  have h3 : ∀ B : Nat, (v % FIELD ^ (j + (k + 1)) / FIELD ^ j + B * (FIELD ^ k * FIELD)) % FIELD
      = v % FIELD ^ (j + (k + 1)) / FIELD ^ j % FIELD := by
    intro B
    have : B * (FIELD ^ k * FIELD) = B * FIELD ^ k * FIELD := by ring
    rw [this, Nat.add_mul_mod_self_right]
  rw [h3, h3]

theorem vget_vset_gt {i j : Nat} (v d : Nat) (h : i < j) (hd : d < FIELD) :
    vget (vset v i d) j = vget v j := by
  obtain ⟨k, rfl⟩ : ∃ k, j = i + 1 + k := ⟨j - i - 1, by omega⟩
  unfold vget vset
  have hpos : 0 < FIELD ^ (i + 1) := pow_FIELD_pos (i + 1)
  have hL : v % FIELD ^ i < FIELD ^ i := Nat.mod_lt _ (pow_FIELD_pos i)
  have hsmall : d * FIELD ^ i + v % FIELD ^ i < FIELD ^ (i + 1) := by
    have h1 : d * FIELD ^ i + v % FIELD ^ i < (d + 1) * FIELD ^ i := by
      have hsum : (d + 1) * FIELD ^ i = d * FIELD ^ i + FIELD ^ i := by ring
      omega
    have h2 : (d + 1) * FIELD ^ i ≤ FIELD * FIELD ^ i :=
      Nat.mul_le_mul_right _ (by omega)
    calc d * FIELD ^ i + v % FIELD ^ i < (d + 1) * FIELD ^ i := h1
      _ ≤ FIELD * FIELD ^ i := h2
      _ = FIELD ^ (i + 1) := by rw [pow_succ]; ring
  have hrepr : (v / FIELD ^ (i + 1) * FIELD + d) * FIELD ^ i + v % FIELD ^ i
      = (d * FIELD ^ i + v % FIELD ^ i) + FIELD ^ (i + 1) * (v / FIELD ^ (i + 1)) := by
    rw [pow_succ]; ring
  have hdiv : ((v / FIELD ^ (i + 1) * FIELD + d) * FIELD ^ i + v % FIELD ^ i)
      / FIELD ^ (i + 1) = v / FIELD ^ (i + 1) := by
    rw [hrepr, Nat.add_mul_div_left _ _ hpos, Nat.div_eq_of_lt hsmall, Nat.zero_add]
  have hpow : FIELD ^ (i + 1 + k) = FIELD ^ (i + 1) * FIELD ^ k := by rw [pow_add]
  rw [hpow, ← Nat.div_div_eq_div_mul, ← Nat.div_div_eq_div_mul, hdiv]

theorem vget_vset_ne {i j : Nat} (v d : Nat) (h : j ≠ i) (hd : d < FIELD) :
    vget (vset v i d) j = vget v j := by
  rcases Nat.lt_or_ge j i with hlt | hge
  · exact vget_vset_lt v d hlt
  · exact vget_vset_gt v d (by omega) hd

/-- Pigeonhole bound on the recursion depth: the depths 1, ..., depth-1
are stamps of distinct records among the 2048, so depth is at most 2049. -/
theorem seenAll_depth_le {v depth : Nat} (h : seenAll v depth) : depth ≤ 2049 := by
  by_contra hbig
  have hmap : ∀ d, ∃ i, d ∈ Finset.Ico 1 depth → (i < 2048 ∧ vget v i = d) := by
    intro d
    by_cases hd : d ∈ Finset.Ico 1 depth
    · obtain ⟨hd1, hd2⟩ := Finset.mem_Ico.mp hd
      obtain ⟨i, hi⟩ := h d hd1 hd2
      exact ⟨i, fun _ => hi⟩
    · exact ⟨0, fun hc => absurd hc hd⟩
  choose f hf using hmap
  have hcard := Finset.card_le_card_of_injOn f
    (t := Finset.range 2048)
    (fun d hd => Finset.mem_range.mpr (hf d hd).1)
    (fun a ha b hb heq => by
      have h1 := (hf a ha).2
      have h2 := (hf b hb).2
      rw [← h1, ← h2, heq])
  rw [Nat.card_Ico, Finset.card_range] at hcard
  omega

/-! ### The traversal specification

`TraverseSpec` is the induction load for every theorem about
`recTraverse`: on a set `GS` of record indices closed under pre-event
successors, a call at positive depth with enough fuel completes and
preserves the invariants above.  Instantiated with all 2048 indices it
gives unconditional termination; instantiated with the 552 records
reachable from the start configuration it additionally pins down the
reported events. -/

structure VisitPost (GS pend : List Nat) (depth : Nat) (st st1 : SearchState) : Prop where
  pres : preservesLe st.visited st1.visited depth
  mono : writtenMono st.visited st1.visited
  done : doneExcept st1.visited pend
  ginv : goalInv st1.visited st1.goalDepths pend
  gmono : st.goalDepths ≠ [] → st1.goalDepths ≠ []
  log : logGood st1.writeLog
  ill : (∀ j ∈ GS, illegalFirst j = false) → st1.illegalDepths = st.illegalDepths

structure VisitPre (pend : List Nat) (depth : Nat) (st : SearchState) : Prop where
  seen : seenAll st.visited depth
  done : doneExcept st.visited pend
  ginv : goalInv st.visited st.goalDepths pend
  log : logGood st.writeLog

def TraverseSpec (GS : List Nat) (fuel : Nat) : Prop :=
  ∀ index depth st pend, index ∈ GS → 1 ≤ depth → 2051 ≤ depth + fuel →
    VisitPre pend depth st →
    ∃ st1, recTraverse fuel index depth st = some st1 ∧
      0 < vget st1.visited index ∧ VisitPost GS pend depth st st1

/-- The specification of the visit loop: processing a suffix `bs` of the
branch list completes, stamps every pre-event branch of `bs`, reports a
goal when the first event of `bs` is a goal, and reports nothing illegal
when neither `bs` nor any record of `GS` opens with an illegal event. -/
theorem recBranches_spec (GS : List Nat)
    (fuel : Nat) (hf : TraverseSpec GS fuel) :
    ∀ bs depth st pendC,
      1 ≤ depth → 2051 ≤ depth + 1 + fuel →
      seenAll st.visited (depth + 1) →
      doneExcept st.visited pendC →
      goalInv st.visited st.goalDepths pendC →
      logGood st.writeLog →
      (∀ b ∈ bs.takeWhile (fun x => !isEventBranch x), computeIndex b ∈ GS) →
      ∃ st1, recBranches (fun i d s => recTraverse fuel i d s) bs depth st = some st1 ∧
        preservesLe st.visited st1.visited (depth + 1) ∧
        writtenMono st.visited st1.visited ∧
        (∀ b ∈ bs.takeWhile (fun x => !isEventBranch x),
          0 < vget st1.visited (computeIndex b)) ∧
        doneExcept st1.visited pendC ∧
        goalInv st1.visited st1.goalDepths pendC ∧
        (st.goalDepths ≠ [] → st1.goalDepths ≠ []) ∧
        logGood st1.writeLog ∧
        (∀ b, (bs.dropWhile (fun x => !isEventBranch x)).head? = some b →
          illegalP b = false → goalP b = true → st1.goalDepths ≠ []) ∧
        ((∀ j ∈ GS, illegalFirst j = false) →
          (∀ b, (bs.dropWhile (fun x => !isEventBranch x)).head? = some b →
            illegalP b = false) →
          st1.illegalDepths = st.illegalDepths) := by
  intro bs
  induction bs with
  | nil =>
    intro depth st pendC hdep hfuel hseen hdone hginv hlog hGSb
    refine ⟨st, rfl, fun i h1 h2 => rfl, fun i h => h, ?_, hdone, hginv, fun h => h,
      hlog, ?_, fun _ _ => rfl⟩
    · intro b hb; simp at hb
    · intro b hb; simp at hb
  | cons b rest ih =>
    intro depth st pendC hdep hfuel hseen hdone hginv hlog hGSb
    by_cases hill : illegalP b = true
    · have hev : isEventBranch b = true := by simp [isEventBranch, hill]
      refine ⟨{ st with illegalDepths := depth :: st.illegalDepths }, ?_,
        fun i h1 h2 => rfl, fun i h => h, ?_, hdone, hginv, fun h => h, hlog, ?_, ?_⟩
      · simp [recBranches, hill]
      · intro b1 hb1; rw [List.takeWhile_cons, hev] at hb1; simp at hb1
      · intro b1 hb1 hni hg
        rw [List.dropWhile_cons, hev] at hb1
        simp at hb1
        rw [← hb1] at hni
        rw [hni] at hill
        cases hill
      · intro hNI hhead
        have hbh := hhead b (by rw [List.dropWhile_cons, hev]; simp)
        rw [hbh] at hill
        cases hill
    · by_cases hgoal : goalP b = true
      · have hev : isEventBranch b = true := by simp [isEventBranch, hgoal]
        refine ⟨{ st with goalDepths := depth :: st.goalDepths }, ?_,
          fun i h1 h2 => rfl, fun i h => h, ?_, hdone, ?_,
          fun _ => List.cons_ne_nil _ _, hlog,
          fun _ _ _ _ => List.cons_ne_nil _ _, fun _ _ => rfl⟩
        · simp [recBranches, hill, hgoal]
        · intro b1 hb1; rw [List.takeWhile_cons, hev] at hb1; simp at hb1
        · exact fun j hj hw hnp hgf => List.cons_ne_nil _ _
      · -- ordinary branch: recurse, then continue with the rest
        have hev : isEventBranch b = false := by simp [isEventBranch, hill, hgoal]
        have hTW : (b :: rest).takeWhile (fun x => !isEventBranch x)
            = b :: rest.takeWhile (fun x => !isEventBranch x) := by
          rw [List.takeWhile_cons, hev]; simp
        have hDW : (b :: rest).dropWhile (fun x => !isEventBranch x)
            = rest.dropWhile (fun x => !isEventBranch x) := by
          rw [List.dropWhile_cons, hev]; simp
        have hbmem : b ∈ (b :: rest).takeWhile (fun x => !isEventBranch x) := by
          rw [hTW]; exact List.mem_cons_self _ _
        obtain ⟨st1, heq1, hw1, post1⟩ :=
          hf (computeIndex b) (depth + 1) st pendC (hGSb b hbmem) (by omega) (by omega)
            ⟨hseen, hdone, hginv, hlog⟩
        have hseen1 : seenAll st1.visited (depth + 1) := by
          intro d h1 h2
          obtain ⟨i, hi, hv⟩ := hseen d h1 h2
          refine ⟨i, hi, ?_⟩
          rw [post1.pres i (by omega) (by omega)]
          exact hv
        obtain ⟨st2, heq2, hpres2, hmono2, hstamp2, hdone2, hginv2, hgmono2, hlog2,
            hghead2, hill2⟩ :=
          ih depth st1 pendC hdep hfuel hseen1 post1.done post1.ginv post1.log
            (fun b1 hb1 => hGSb b1 (by rw [hTW]; exact List.mem_cons_of_mem _ hb1))
        refine ⟨st2, ?_, ?_, fun i h => hmono2 i (post1.mono i h), ?_, hdone2, hginv2,
          fun h => hgmono2 (post1.gmono h), hlog2, ?_, ?_⟩
        · simp only [recBranches]
          rw [if_neg (by simp [hill]), if_neg (by simp [hgoal])]
          rw [heq1]
          exact heq2
        · intro i h1 h2
          have e1 := post1.pres i h1 h2
          rw [hpres2 i (by rw [e1]; exact h1) (by rw [e1]; exact h2), e1]
        · intro b1 hb1
          rw [hTW] at hb1
          rcases List.mem_cons.mp hb1 with hb1 | hb1
          · rw [hb1]; exact hmono2 _ hw1
          · exact hstamp2 b1 hb1
        · intro b1 hb1 hni hg
          rw [hDW] at hb1
          exact hghead2 b1 hb1 hni hg
        · intro hNI hhead
          rw [hill2 hNI (fun b1 hb1 => hhead b1 (by rw [hDW]; exact hb1)),
            post1.ill hNI]

/-- The traversal specification holds at every fuel. -/
theorem traverseSpec (GS : List Nat)
    (hGSlt : ∀ j ∈ GS, j < 2048)
    (hGSclosed : ∀ j ∈ GS, ∀ k ∈ prefixSucc j, k ∈ GS) :
    ∀ fuel, TraverseSpec GS fuel := by
  intro fuel
  induction fuel with
  | zero =>
    intro index depth st pend hGS hdep hfuel hpre
    have := seenAll_depth_le hpre.seen
    omega
  | succ fuel ihf =>
    intro index depth st pend hGS hdep hfuel hpre
    by_cases hprune : 0 < vget st.visited index ∧ vget st.visited index ≤ depth
    · refine ⟨st, ?_, hprune.1,
        fun i h1 h2 => rfl, fun i h => h, hpre.done, hpre.ginv, fun h => h,
        hpre.log, fun _ => rfl⟩
      simp only [recTraverse]
      rw [if_pos hprune]
    · have hidx : index < 2048 := hGSlt index hGS
      have hdle : depth ≤ 2049 := seenAll_depth_le hpre.seen
      have hFval : FIELD = 4096 := rfl
      have hdF : depth < FIELD := by omega
      have hv1self : vget (visitMark st index depth).visited index = depth :=
        vget_vset_self _ _ _ hdF
      have hv1ne : ∀ j, j ≠ index →
          vget (visitMark st index depth).visited j = vget st.visited j :=
        fun j hj => vget_vset_ne _ _ hj hdF
      have hpz : vget st.visited index = 0 ∨ depth < vget st.visited index := by
        rcases Nat.eq_zero_or_pos (vget st.visited index) with h | h
        · exact Or.inl h
        · right; by_contra hc; exact hprune ⟨h, by omega⟩
      have hmono1 : writtenMono st.visited (visitMark st index depth).visited := by
        intro i h
        by_cases hi : i = index
        · subst hi; rw [hv1self]; omega
        · rw [hv1ne i hi]; exact h
      have hseen1 : seenAll (visitMark st index depth).visited (depth + 1) := by
        intro d h1 h2
        by_cases hd : d = depth
        · exact ⟨index, hidx, by rw [hv1self, hd]⟩
        · obtain ⟨i, hi, hv⟩ := hpre.seen d h1 (by omega)
          have hine : i ≠ index := by
            intro he; subst he; rw [hv] at hpz; omega
          exact ⟨i, hi, by rw [hv1ne i hine]; exact hv⟩
      have hdone1 : doneExcept (visitMark st index depth).visited (index :: pend) := by
        intro j hj hw
        by_cases hji : j = index
        · exact Or.inl (by rw [hji]; exact List.mem_cons_self _ _)
        · rw [hv1ne j hji] at hw
          rcases hpre.done j hj hw with hp | hs
          · exact Or.inl (List.mem_cons_of_mem _ hp)
          · exact Or.inr fun k hk => hmono1 k (hs k hk)
      have hginv1 : goalInv (visitMark st index depth).visited
          (visitMark st index depth).goalDepths (index :: pend) := by
        intro j hj hw hnp hgf
        have hji : j ≠ index := fun he => hnp (he ▸ List.mem_cons_self _ _)
        rw [hv1ne j hji] at hw
        exact hpre.ginv j hj hw (fun hp => hnp (List.mem_cons_of_mem _ hp)) hgf
      have hlog1 : logGood (visitMark st index depth).writeLog := by
        intro e he
        rcases List.mem_cons.mp he with he | he
        · rw [he]; simpa using hpz
        · exact hpre.log e he
      have hGSb1 : ∀ b ∈ (branchList (space index)).takeWhile (fun x => !isEventBranch x),
          computeIndex b ∈ GS :=
        fun b hb => hGSclosed index hGS _ (List.mem_map_of_mem _ hb)
      obtain ⟨st2, heq2, hpres2, hmono2, hstamp2, hdone2, hginv2, hgmono2, hlog2,
          hghead2, hill2⟩ :=
        recBranches_spec GS fuel ihf (branchList (space index)) depth
          (visitMark st index depth) (index :: pend)
          hdep (by omega) hseen1 hdone1 hginv1 hlog1 hGSb1
      refine ⟨st2, ?_, hmono2 index (by rw [hv1self]; omega), ?_, ?_, ?_, ?_, ?_, ?_, ?_⟩
      · simp only [recTraverse]
        rw [if_neg hprune]
        exact heq2
      · -- stamps up to the current depth survive
        intro i h1 h2
        have hine : i ≠ index := fun he => hprune (he ▸ ⟨h1, h2⟩)
        have e1 := hv1ne i hine
        rw [hpres2 i (by rw [e1]; exact h1) (by rw [e1]; omega), e1]
      · exact fun i h => hmono2 i (hmono1 i h)
      · -- completeness: the visited record has all pre-event branches stamped
        intro j hj hw
        rcases hdone2 j hj hw with hp | hs
        · rcases List.mem_cons.mp hp with hji | hp
          · refine Or.inr fun k hk => ?_
            obtain ⟨b, hb, rfl⟩ := List.mem_map.mp (hji ▸ hk)
            exact hstamp2 b hb
          · exact Or.inl hp
        · exact Or.inr hs
      · -- the goal-report invariant survives for the caller
        intro j hj hw hnp hgf
        by_cases hji : j = index
        · subst hji
          unfold goalFirst at hgf
          rcases heado : eventOfVisit j with _ | bev
          · rw [heado] at hgf; cases hgf
          · rw [heado] at hgf
            have hgf1 : (!illegalP bev && goalP bev) = true := hgf
            have hgf2 : illegalP bev = false ∧ goalP bev = true := by simpa using hgf1
            exact hghead2 bev heado hgf2.1 hgf2.2
        · exact hginv2 j hj hw
            (fun hp => (List.mem_cons.mp hp).elim (fun h => hji h) hnp) hgf
      · exact fun h => hgmono2 h
      · exact hlog2
      · intro hNI
        have hself := hNI index hGS
        unfold illegalFirst at hself
        refine (hill2 hNI fun b1 hb1 => ?_).trans rfl
        rw [show eventOfVisit index = some b1 from hb1] at hself
        exact hself


/-! ### The records reachable from the start configuration

`reachBits` is the bitmask of the 552 record indices reachable from the
start configuration along pre-event branches; `reachSet` lists them.
The set is closed under `prefixSucc`, no visit of one of its records
opens with an illegal event, and `goalPath` is a chain inside it from
the start record to record 852, whose visit opens with a goal event
(all checked by evaluation below). -/

def reachBits : Nat :=
  1751908409945029499835667015160100137777707746742275863140778011793681432866470523257279802421445786411254333738463033385548812700723233308607062991400159022340559425390717747352617167369567047331537116786760025442203895193699640234543327048219336174725762677946825978393394052230514447571854764824387486276986230935970705800281393340751327602958628927785026906470959457859829330936699490949889325415424709184750989678701570831113550349051169272850387121138233605926212081887618168418713724191298823358230020883956921792803499170061095650504366115722612646936411623143907654623608651443110171115584

/-- Does the reachability bitmask contain record `k`? -/
def inReach (k : Nat) : Bool := Nat.testBit reachBits k

/-- The reachable record indices as a list. -/
def reachSet : List Nat := (List.range 2048).filter (fun j => inReach j)

/-- A pre-event-successor chain from the start record to the record of
the configuration with both pencils on box 50 (whose visit reports a
goal). -/
def goalPath : List Nat :=

  [6, 1062, 1190, 1318, 1414, 900, 1221, 1125, 1253, 1445, 931, 939, 947, 957, 958, 1536, 1152,
   1280, 776, 784, 1328, 1424, 1233, 1137, 1265, 1457, 1041, 1169, 1073, 1201, 1105, 595, 1235,
   733, 734, 1374, 852]

/-! ### Evaluated facts about the transition table

`tableOK` checks, in one pass over one record, everything the theorems
below need from the rule engine: `scanBranches` walks the branch list
once, checking that every pre-event branch has an index below 2048 and
(for a reachable record) stays inside the reachable set, and that a
reachable record does not open with an illegal event; the `c*chk`
checkers state the per-rule successor properties.  `tableFacts`
evaluates the combined check on all 2048 records; the lemmas after it
read the checked properties back. -/

def scanBranches : List State → Bool → Bool
  | [], _ => true
  | b :: rest, inR =>
    if illegalP b then !inR
    else if goalP b then true
    else decide (computeIndex b < 2048) && (!inR || inReach (computeIndex b))
      && scanBranches rest inR

/-- Box 55 produces the one alternate successor (claim C5): an alternate
exactly at position 55, there a LUGNUT path with primary moved to 15 and
the alternate equal to the primary except at position 7. -/
def c5chk (s : State) (chosen : Nat) (n : State) (a : Option State) (p : Nat) : Bool :=
  if pencilAt s chosen = 55 then
    p == PATH_LUGNUT && (pencilAt n chosen == 15) && (a == some (setPencil n chosen 7))
  else a == none

/-- Box 61 semantics (claim C6): chosen pencil to 1 and marked moved;
under rule 60 the other pencil is untouched, otherwise it is forced along
its yes path and marked moved. -/
def c6chk (s : State) (chosen : Nat) (n : State) : Bool :=
  if pencilAt s chosen = 61 then
    (pencilAt n chosen == 1) && movedAt n chosen &&
    (if s.rule60 then
      (pencilAt n (otherPencil chosen) == pencilAt s (otherPencil chosen))
        && (movedAt n (otherPencil chosen) == false)
        && (n.rule60 == s.rule60)
    else
      (pencilAt n (otherPencil chosen) == getYesPath (pencilAt s (otherPencil chosen)))
        && movedAt n (otherPencil chosen))
  else true

/-- Mode flag propagation (claim C7): every successor copies the rule-60
flag except box 60 (sets it) and box 65 (clears it). -/
def c7chk (s : State) (chosen : Nat) (n : State) (a : Option State) : Bool :=
  (n.rule60 == (if pencilAt s chosen = 60 then true
    else if pencilAt s chosen = 65 then false else s.rule60)) &&
  (match a with
    | some x => x.rule60 == (if pencilAt s chosen = 60 then true
        else if pencilAt s chosen = 65 then false else s.rule60)
    | none => true)

/-- Movement flags (claim C10): except in the deadlock case (both flags
stay cleared), the chosen pencil is marked moved and the other pencil is
marked moved exactly in the box-61 cross move; an alternate successor
marks only the chosen pencil. -/
def c10chk (s : State) (chosen : Nat) (n : State) (a : Option State) (p : Nat) : Bool :=
  (if p == PATH_NONE then (n.moved0 == false) && (n.moved1 == false)
    else movedAt n chosen &&
      (movedAt n (otherPencil chosen) == (pencilAt s chosen == 61 && !s.rule60))) &&
  (match a with
    | some x => movedAt x chosen && (movedAt x (otherPencil chosen) == false)
    | none => true)

def pencilChecks (s : State) (chosen : Nat) (r : RuleResult) : Bool :=
  c5chk s chosen r.next r.alt r.path && c6chk s chosen r.next
    && c7chk s chosen r.next r.alt && c10chk s chosen r.next r.alt r.path

def tableOK (j : Nat) : Bool :=
  scanBranches (branchList (space j)) (inReach j)
    && pencilChecks (decodeState j) 0 (determineNextStates (decodeState j) 0)
    && pencilChecks (decodeState j) 1 (determineNextStates (decodeState j) 1)

theorem tableFacts : ((List.range 2048).all (fun j => tableOK j)) = true := by decide!

theorem scanBranches_take (bs : List State) (inR : Bool) (h : scanBranches bs inR = true) :
    ∀ b ∈ bs.takeWhile (fun x => !isEventBranch x),
      computeIndex b < 2048 ∧ (inR = true → inReach (computeIndex b) = true) := by
  induction bs with
  | nil => intro b hb; simp at hb
  | cons b rest ih =>
    intro b1 hb1
    by_cases hill : illegalP b = true
    · have hev : isEventBranch b = true := by simp [isEventBranch, hill]
      rw [List.takeWhile_cons, hev] at hb1
      simp at hb1
    · by_cases hgoal : goalP b = true
      · have hev : isEventBranch b = true := by simp [isEventBranch, hgoal]
        rw [List.takeWhile_cons, hev] at hb1
        simp at hb1
      · have hev : isEventBranch b = false := by simp [isEventBranch, hill, hgoal]
        rw [List.takeWhile_cons, hev] at hb1
        simp only [Bool.not_false, if_true] at hb1
        have h1 : scanBranches (b :: rest) inR
            = (decide (computeIndex b < 2048) && (!inR || inReach (computeIndex b))
              && scanBranches rest inR) := by
          simp [scanBranches, hill, hgoal]
        rw [h1] at h
        have h2 : decide (computeIndex b < 2048) = true ∧
            (!inR || inReach (computeIndex b)) = true ∧ scanBranches rest inR = true := by
          simpa [Bool.and_eq_true, and_assoc] using h
        rcases List.mem_cons.mp hb1 with hb1 | hb1
        · subst hb1
          refine ⟨by simpa using h2.1, fun hr => ?_⟩
          have h3 := h2.2.1
          rw [hr] at h3
          simpa using h3
        · exact ih h2.2.2 b1 hb1

theorem scanBranches_head (bs : List State) (inR : Bool) (h : scanBranches bs inR = true)
    (hr : inR = true) :
    ∀ b, (bs.dropWhile (fun x => !isEventBranch x)).head? = some b → illegalP b = false := by
  induction bs with
  | nil => intro b hb; simp at hb
  | cons b rest ih =>
    intro b1 hb1
    by_cases hill : illegalP b = true
    · have h1 : scanBranches (b :: rest) inR = !inR := by simp [scanBranches, hill]
      rw [h1, hr] at h
      simp at h
    · by_cases hgoal : goalP b = true
      · have hev : isEventBranch b = true := by simp [isEventBranch, hgoal]
        rw [List.dropWhile_cons, hev] at hb1
        simp at hb1
        rw [← hb1]
        simpa using hill
      · have hev : isEventBranch b = false := by simp [isEventBranch, hill, hgoal]
        rw [List.dropWhile_cons, hev] at hb1
        simp only [Bool.not_false, if_true] at hb1
        have h1 : scanBranches (b :: rest) inR
            = (decide (computeIndex b < 2048) && (!inR || inReach (computeIndex b))
              && scanBranches rest inR) := by
          simp [scanBranches, hill, hgoal]
        rw [h1] at h
        have h2 : decide (computeIndex b < 2048) = true ∧
            (!inR || inReach (computeIndex b)) = true ∧ scanBranches rest inR = true := by
          simpa [Bool.and_eq_true, and_assoc] using h
        exact ih h2.2.2 b1 hb1

/-- Read the evaluated table facts back, per record: the branch scan of
the branch list, and the per-rule checks for each pencil. -/
theorem tableOK_parts {j : Nat} (hj : j < 2048) :
    scanBranches (branchList (space j)) (inReach j) = true ∧
    (∀ chosen, chosen = 0 ∨ chosen = 1 →
      pencilChecks (decodeState j) chosen (determineNextStates (decodeState j) chosen)
        = true) := by
  have h := List.all_eq_true.mp tableFacts j (List.mem_range.mpr hj)
  simp only [decide_eq_true_eq] at h
  unfold tableOK at h
  have h2 : scanBranches (branchList (space j)) (inReach j) = true ∧
      pencilChecks (decodeState j) 0 (determineNextStates (decodeState j) 0) = true ∧
      pencilChecks (decodeState j) 1 (determineNextStates (decodeState j) 1) = true := by
    simpa [Bool.and_eq_true, and_assoc] using h
  refine ⟨h2.1, ?_⟩
  intro chosen hch
  rcases hch with rfl | rfl
  · exact h2.2.1
  · exact h2.2.2

theorem prefixSucc_facts {j : Nat} (hj : j < 2048) :
    ∀ k ∈ prefixSucc j, k < 2048 ∧ (inReach j = true → inReach k = true) := by
  intro k hk
  unfold prefixSucc at hk
  obtain ⟨b, hb, rfl⟩ := List.mem_map.mp hk
  exact scanBranches_take _ _ (tableOK_parts hj).1 b hb

theorem illegalFirst_reach {j : Nat} (hj : j < 2048) (hr : inReach j = true) :
    illegalFirst j = false := by
  unfold illegalFirst
  rcases heq : eventOfVisit j with _ | b
  · rfl
  · exact scanBranches_head _ _ (tableOK_parts hj).1 hr b heq

/-! ### The codec is a bijection between legal configurations and [0, 2048) -/

theorem mazepoint_getD_indexOf :
    (MAZEPOINT.all fun x => (MAZEPOINT.getD (MAZEPOINT.indexOf x) 0 == x)
      && decide (MAZEPOINT.indexOf x < 16)) = true := by decide

theorem mazepoint_indexOf_getD :
    ((List.range 16).all fun k => (MAZEPOINT.indexOf (MAZEPOINT.getD k 0) == k)
      && decide (MAZEPOINT.getD k 0 ∈ MAZEPOINT)) = true := by decide

theorem getD_indexOf {x : Nat} (hx : x ∈ MAZEPOINT) :
    MAZEPOINT.getD (MAZEPOINT.indexOf x) 0 = x ∧ MAZEPOINT.indexOf x < 16 := by
  have h := List.all_eq_true.mp mazepoint_getD_indexOf x hx
  simpa using h

theorem indexOf_getD {k : Nat} (hk : k < 16) :
    MAZEPOINT.indexOf (MAZEPOINT.getD k 0) = k ∧ MAZEPOINT.getD k 0 ∈ MAZEPOINT := by
  have h := List.all_eq_true.mp mazepoint_indexOf_getD k (List.mem_range.mpr hk)
  simpa using h

/-- Encoding after decoding is the identity on the 2048 record indices. -/
theorem computeIndex_decodeState {j : Nat} (hj : j < 2048) :
    computeIndex (decodeState j) = j := by
  have h0 := indexOf_getD (k := j / 32 % 16) (Nat.mod_lt _ (by omega))
  have h1 := indexOf_getD (k := j / 2 % 16) (Nat.mod_lt _ (by omega))
  simp only [computeIndex, decodeState, getMazePointIndex, MAZEPOINT_COUNT, h0.1, h1.1]
  rcases Nat.mod_two_eq_zero_or_one (j / 1024) with hm0 | hm0 <;>
    rcases Nat.mod_two_eq_zero_or_one (j / 512) with hm1 | hm1 <;>
    rcases Nat.mod_two_eq_zero_or_one j with hmr | hmr <;>
    simp [hm0, hm1, hmr] <;> omega

/-- Decoding a linearly composed index recovers its digits. -/
theorem decode_linear (b0 b1 i0 i1 br : Nat)
    (hb0 : b0 < 2) (hb1 : b1 < 2) (hi0 : i0 < 16) (hi1 : i1 < 16) (hbr : br < 2) :
    decodeState ((((b0 * 2 + b1) * 16 + i0) * 16 + i1) * 2 + br)
      = ⟨MAZEPOINT.getD i0 0, MAZEPOINT.getD i1 0, b0 == 1, b1 == 1, br == 1⟩ := by
  have e0 : (((b0 * 2 + b1) * 16 + i0) * 16 + i1) * 2 + br = 1024 * b0 + 512 * b1
      + 32 * i0 + 2 * i1 + br := by ring
  rw [e0]
  have f0 : (1024 * b0 + 512 * b1 + 32 * i0 + 2 * i1 + br) / 32 % 16 = i0 := by omega
  have f1 : (1024 * b0 + 512 * b1 + 32 * i0 + 2 * i1 + br) / 2 % 16 = i1 := by omega
  have f2 : (1024 * b0 + 512 * b1 + 32 * i0 + 2 * i1 + br) / 1024 % 2 = b0 := by omega
  have f3 : (1024 * b0 + 512 * b1 + 32 * i0 + 2 * i1 + br) / 512 % 2 = b1 := by omega
  have f4 : (1024 * b0 + 512 * b1 + 32 * i0 + 2 * i1 + br) % 2 = br := by omega
  simp only [decodeState, f0, f1, f2, f3, f4]

/-- Decoding after encoding is the identity on legal configurations, and
the encoded index lies below 2048. -/
theorem decodeState_computeIndex {s : State}
    (h0 : s.pencil0 ∈ MAZEPOINT) (h1 : s.pencil1 ∈ MAZEPOINT) :
    computeIndex s < 2048 ∧ decodeState (computeIndex s) = s := by
  rcases s with ⟨p0, p1, m0, m1, r⟩
  obtain ⟨hg0, hi0⟩ := getD_indexOf h0
  obtain ⟨hg1, hi1⟩ := getD_indexOf h1
  have hcomp : computeIndex ⟨p0, p1, m0, m1, r⟩
      = ((((if m0 then 1 else 0) * 2 + (if m1 then 1 else 0)) * 16
          + MAZEPOINT.indexOf p0) * 16 + MAZEPOINT.indexOf p1) * 2
        + (if r then 1 else 0) := by
    simp [computeIndex, getMazePointIndex, MAZEPOINT_COUNT]
  constructor
  · rw [hcomp]
    have hm0 : (if m0 then 1 else 0) ≤ 1 := by rcases m0 <;> simp
    have hm1 : (if m1 then 1 else 0) ≤ 1 := by rcases m1 <;> simp
    have hr : (if r then 1 else 0) ≤ 1 := by rcases r <;> simp
    have := hi0
    have := hi1
    nlinarith [hi0, hi1, hm0, hm1, hr]
  · rw [hcomp, decode_linear _ _ _ _ _
      (by rcases m0 <;> simp) (by rcases m1 <;> simp) hi0 hi1 (by rcases r <;> simp)]
    rw [hg0, hg1]
    rcases m0 <;> rcases m1 <;> rcases r <;> rfl

/-! ### The start run: goal events occur, illegal events never do -/

theorem reach_lt : ∀ j ∈ reachSet, j < 2048 :=
  fun _ hj => List.mem_range.mp (List.mem_filter.mp hj).1

theorem reach_closed : ∀ j ∈ reachSet, ∀ k ∈ prefixSucc j, k ∈ reachSet := by
  intro j hj k hk
  obtain ⟨hjr, hjin⟩ := List.mem_filter.mp hj
  obtain ⟨hk48, hkin⟩ := prefixSucc_facts (List.mem_range.mp hjr) k hk
  exact List.mem_filter.mpr ⟨List.mem_range.mpr hk48, by simpa using hkin (by simpa using hjin)⟩

theorem reach_no_illegal : ∀ j ∈ reachSet, illegalFirst j = false := by
  intro j hj
  obtain ⟨hjr, hjin⟩ := List.mem_filter.mp hj
  exact illegalFirst_reach (List.mem_range.mp hjr) (by simpa using hjin)

/-- A chain of records, each a pre-event successor of the previous one. -/
def chainOKb : Nat → List Nat → Bool
  | _, [] => true
  | a, b :: t => decide (a < 2048) && decide (b ∈ prefixSucc a) && chainOKb b t

theorem goalPath_chain : chainOKb 6 goalPath.tail = true := by decide!

theorem goalFirst_852 : goalFirst 852 = true := by decide!

/-- In a completed search state, every record chained to a stamped record
through pre-event successors is stamped as well. -/
theorem written_chain (v : Nat) (hdone : doneExcept v []) :
    ∀ (l : List Nat) (a : Nat), chainOKb a l = true → 0 < vget v a →
      ∀ b ∈ a :: l, 0 < vget v b := by
  intro l
  induction l with
  | nil =>
    intro a hc ha b hb
    rw [List.mem_singleton] at hb
    rw [hb]
    exact ha
  | cons c t ih =>
    intro a hc ha b hb
    have hc2 : a < 2048 ∧ c ∈ prefixSucc a ∧ chainOKb c t = true := by
      simpa [chainOKb, Bool.and_eq_true, and_assoc] using hc
    have hcw : 0 < vget v c := by
      rcases hdone a hc2.1 ha with hp | hs
      · simp at hp
      · exact hs c hc2.2.1
    rcases List.mem_cons.mp hb with rfl | hb
    · exact ha
    · exact ih c hc2.2.2 hcw b hb

theorem startIndex_eq : computeIndex startState = 6 := by decide!

theorem startIndex_mem : computeIndex startState ∈ reachSet := by
  rw [startIndex_eq]
  refine List.mem_filter.mpr ⟨List.mem_range.mpr (by omega), ?_⟩
  decide!

/-- The initial search state satisfies the visit precondition at depth 1
with no pending visits. -/
theorem initial_pre : VisitPre [] 1 initialSearchState := by
  refine ⟨?_, ?_, ?_, ?_⟩
  · intro d h1 h2; omega
  · intro j hj hwj; simp [initialSearchState, vget] at hwj
  · intro j hj hwj; simp [initialSearchState, vget] at hwj
  · intro e he; simp [initialSearchState] at he

/-- The run from the start configuration completes; it reports at least
one goal event, no illegal event, and every logged stamp write hit an
unvisited record or strictly lowered the stamp. -/
theorem startTraversal_spec :
    ∃ st, startTraversal = some st ∧ st.goalDepths ≠ [] ∧ st.illegalDepths = []
      ∧ logGood st.writeLog := by
  obtain ⟨st, heq, hw, post⟩ :=
    traverseSpec reachSet reach_lt reach_closed 2050
      (computeIndex startState) 1 initialSearchState [] startIndex_mem (by omega) (by omega)
      initial_pre
  refine ⟨st, heq, ?_, ?_, post.log⟩
  · rw [startIndex_eq] at hw
    have h852 : 0 < vget st.visited 852 :=
      written_chain st.visited post.done goalPath.tail 6 goalPath_chain hw 852 (by decide)
    exact post.ginv 852 (by omega) h852 (by simp) goalFirst_852
  · have h := post.ill reach_no_illegal
    rw [h]
    rfl

/-! ### The stamp write discipline -/

theorem recBranches_log (fuel : Nat)
    (hf : ∀ i d s s1, logGood s.writeLog → recTraverse fuel i d s = some s1 →
      logGood s1.writeLog) :
    ∀ bs depth st st1, logGood st.writeLog →
      recBranches (fun i d s => recTraverse fuel i d s) bs depth st = some st1 →
      logGood st1.writeLog := by
  intro bs
  induction bs with
  | nil =>
    intro depth st st1 hlog heq
    simp only [recBranches] at heq
    cases heq
    exact hlog
  | cons b rest ih =>
    intro depth st st1 hlog heq
    simp only [recBranches] at heq
    by_cases hill : illegalP b = true
    · rw [if_pos hill] at heq
      cases heq
      exact hlog
    · rw [if_neg hill] at heq
      by_cases hgoal : goalP b = true
      · rw [if_pos hgoal] at heq
        cases heq
        exact hlog
      · rw [if_neg hgoal] at heq
        rcases hrec : recTraverse fuel (computeIndex b) (depth + 1) st with _ | s1
        · rw [hrec] at heq
          cases heq
        · rw [hrec] at heq
          exact ih depth s1 st1 (hf _ _ _ _ hlog hrec) heq

theorem recTraverse_log : ∀ fuel index depth st st1, logGood st.writeLog →
    recTraverse fuel index depth st = some st1 → logGood st1.writeLog := by
  intro fuel
  induction fuel with
  | zero =>
    intro i d s s1 h heq
    simp [recTraverse] at heq
  | succ fuel ih =>
    intro index depth st st1 hlog heq
    simp only [recTraverse] at heq
    by_cases hprune : 0 < vget st.visited index ∧ vget st.visited index ≤ depth
    · rw [if_pos hprune] at heq
      cases heq
      exact hlog
    · rw [if_neg hprune] at heq
      have hlog1 : logGood (visitMark st index depth).writeLog := by
        intro e he
        simp only [visitMark] at he
        rcases List.mem_cons.mp he with he | he
        · rw [he]
          rcases Nat.eq_zero_or_pos (vget st.visited index) with h | h
          · exact Or.inl h
          · right
            simp only []
            by_contra hc
            exact hprune ⟨h, by omega⟩
        · exact hlog e he
      exact recBranches_log fuel ih _ depth _ st1 hlog1 heq

/-! ### The claim theorems -/

/-- C2: the encoding composes, outer to inner, pencil-0 movement,
pencil-1 movement, the two maze point ordinals and the mode flag; on
configurations with both pencils on legal maze points it is a bijection
onto [0, 2048), with `decodeState` as its inverse (decode is modelled
from the spec, since the C++ never decodes). -/
theorem codec_bijection :
    (∀ j, j < 2048 → computeIndex (decodeState j) = j) ∧
    (∀ s : State, s.pencil0 ∈ MAZEPOINT → s.pencil1 ∈ MAZEPOINT →
      computeIndex s < 2048 ∧ decodeState (computeIndex s) = s) :=
  ⟨fun _ hj => computeIndex_decodeState hj, fun _ h0 h1 => decodeState_computeIndex h0 h1⟩

/-- Witness for C2 at the start configuration and its index 6. -/
theorem codec_bijection_witness :
    computeIndex (decodeState 6) = 6 ∧
    (computeIndex startState < 2048 ∧ decodeState (computeIndex startState) = startState) :=
  ⟨codec_bijection.1 6 (by omega), codec_bijection.2 startState (by decide) (by decide)⟩

/-- C3: from every configuration with both pencils on legal maze points,
the depth-first traversal over the built table terminates (fuel 2050,
which exceeds the largest possible recursion depth, is never
exhausted). -/
theorem traversal_terminates (s : State)
    (h0 : s.pencil0 ∈ MAZEPOINT) (h1 : s.pencil1 ∈ MAZEPOINT) :
    (recTraverse 2050 (computeIndex s) 1 initialSearchState).isSome = true := by
  have hlt := (decodeState_computeIndex h0 h1).1
  obtain ⟨st, heq, _, _⟩ :=
    traverseSpec (List.range 2048)
      (fun j hj => List.mem_range.mp hj)
      (fun j hj k hk =>
        List.mem_range.mpr (prefixSucc_facts (List.mem_range.mp hj) k hk).1)
      2050 (computeIndex s) 1 initialSearchState []
      (List.mem_range.mpr hlt) (by omega) (by omega) initial_pre
  rw [heq]
  rfl

/-- Witness for C3 at the start configuration. -/
theorem traversal_terminates_witness :
    (recTraverse 2050 (computeIndex startState) 1 initialSearchState).isSome = true :=
  traversal_terminates startState (by decide) (by decide)

/-- C1 (amended): the traversal from pencil 0 on box 1, pencil 1 on
box 7, no movement, rule 60 off, runs to completion with at least one
goal event, no illegal event, and a finite maximum depth. -/
theorem start_run_report :
    ∃ st, startTraversal = some st ∧ st.goalDepths ≠ [] ∧ st.illegalDepths = [] := by
  obtain ⟨st, h1, h2, h3, _⟩ := startTraversal_spec
  exact ⟨st, h1, h2, h3⟩

/-- C1 counterexample: the run from the start configuration refutes
"never a goal event and at least one illegal event": it reports goal
events and no illegal event. -/
theorem start_run_claim_false :
    ∃ st, startTraversal = some st ∧ ¬(st.goalDepths = [] ∧ st.illegalDepths ≠ []) := by
  obtain ⟨st, h1, h2, h3, _⟩ := startTraversal_spec
  exact ⟨st, h1, fun hc => h2 hc.1⟩

/-- C4 counterexample: with the mode flag set, both pencils on box 26 is
not a deadlock; the red-text override sends the chosen pencil to 61 on
the YES path with no illegal position. -/
theorem deadlock_claim_false :
    (determineNextStates ⟨26, 26, false, false, true⟩ 0).path = PATH_YES ∧
    (determineNextStates ⟨26, 26, false, false, true⟩ 0).path ≠ PATH_NONE ∧
    pencilAt (determineNextStates ⟨26, 26, false, false, true⟩ 0).next 0 = 61 ∧
    illegalP (determineNextStates ⟨26, 26, false, false, true⟩ 0).next = false := by
  decide

/-- C4 (amended): with the mode flag off, both pencils on box 26
deadlock for either chosen pencil and any movement flags: the outcome is
PATH_NONE and both successor positions are illegal. -/
theorem deadlock_26 : ∀ (m0 m1 : Bool) (chosen : Nat), chosen = 0 ∨ chosen = 1 →
    (determineNextStates ⟨26, 26, m0, m1, false⟩ chosen).path = PATH_NONE ∧
    (determineNextStates ⟨26, 26, m0, m1, false⟩ chosen).next.pencil0 = ILLEGAL_MAZEPOINT ∧
    (determineNextStates ⟨26, 26, m0, m1, false⟩ chosen).next.pencil1 = ILLEGAL_MAZEPOINT := by
  intro m0 m1 chosen hch
  rcases hch with rfl | rfl <;> cases m0 <;> cases m1 <;> decide

/-- Witness for C4 (amended) at cleared movement flags and pencil 0. -/
theorem deadlock_26_witness :
    (determineNextStates ⟨26, 26, false, false, false⟩ 0).path = PATH_NONE ∧
    (determineNextStates ⟨26, 26, false, false, false⟩ 0).next.pencil0 = ILLEGAL_MAZEPOINT ∧
    (determineNextStates ⟨26, 26, false, false, false⟩ 0).next.pencil1 = ILLEGAL_MAZEPOINT :=
  deadlock_26 false false 0 (Or.inl rfl)

/-- C8 counterexample: in the traversal run started at the configuration
(2, 75, moved0, not moved1, rule 60 on), some stamp write finds a nonzero
previous stamp: records are not stamped exactly once, first visit first. -/
theorem visit_stamp_overwritten :
    ((recTraverse 50 (computeIndex ⟨2, 75, true, false, true⟩) 1 initialSearchState).map
      (fun st => st.writeLog.all (fun e => e.2.1 == 0))) = some false := by
  decide!

/-- C8 (amended): during any traversal, a record stamp is mutated one or
more times; every mutation after the first strictly lowers the stamp
(shallower rediscovery wins), never an overwrite by an equal or deeper
visit. -/
theorem visit_stamp_discipline (fuel index depth : Nat) (st : SearchState)
    (h : logGood st.writeLog) :
    logGood (((recTraverse fuel index depth st).map SearchState.writeLog).getD []) := by
  rcases heq : recTraverse fuel index depth st with _ | st1
  · intro e he
    simp at he
  · simpa using recTraverse_log fuel index depth st st1 h heq

/-- Witness for C8 (amended) on the run exhibiting overwrites. -/
theorem visit_stamp_discipline_witness :
    logGood (((recTraverse 50 (computeIndex ⟨2, 75, true, false, true⟩) 1
      initialSearchState).map SearchState.writeLog).getD []) :=
  visit_stamp_discipline 50 (computeIndex ⟨2, 75, true, false, true⟩) 1 initialSearchState
    (by intro e he; simp [initialSearchState] at he)

/-- C9 counterexample: visiting the record of (26, 26, unmoved, rule 60
off), whose pencil-0 primary successor is illegal, reports exactly one
illegal event and stamps only that one record: the dispatch of the
remaining branches (including the pencil-1 primary, also illegal, which
the claim says would be dispatched and reported) never happens. -/
theorem illegal_abort_counterexample :
    (recTraverse 5 (computeIndex ⟨26, 26, false, false, false⟩) 1 initialSearchState).map
      (fun st => (st.illegalDepths, st.writeLog.length)) = some ([1], 1) := by
  decide!

/-- C9 (amended): when the pencil-0 primary successor of a non-pruned
record is illegal, the visit stamps the record, reports one illegal
event and returns at once, dispatching no further branch. -/
theorem illegal_aborts_visit (fuel index depth : Nat) (st : SearchState)
    (hnp : ¬(0 < vget st.visited index ∧ vget st.visited index ≤ depth))
    (hill : illegalP (space index).next0 = true) :
    recTraverse (fuel + 1) index depth st
      = some { visitMark st index depth with
          illegalDepths := depth :: (visitMark st index depth).illegalDepths } := by
  simp only [recTraverse]
  rw [if_neg hnp]
  obtain ⟨rest, hbl⟩ : ∃ rest, branchList (space index) = (space index).next0 :: rest :=
    ⟨_, rfl⟩
  rw [hbl]
  simp [recBranches, hill]

/-- Witness for C9 (amended) at the deadlock record. -/
theorem illegal_aborts_visit_witness :
    recTraverse 5 (computeIndex ⟨26, 26, false, false, false⟩) 1 initialSearchState
      = some { visitMark initialSearchState (computeIndex ⟨26, 26, false, false, false⟩) 1 with
          illegalDepths := 1 :: (visitMark initialSearchState
            (computeIndex ⟨26, 26, false, false, false⟩) 1).illegalDepths } :=
  illegal_aborts_visit 4 (computeIndex ⟨26, 26, false, false, false⟩) 1 initialSearchState
    (by decide!) (by decide!)

/-- On a configuration with both pencils on legal maze points, the four
per-rule checkers of the evaluated table pass for either chosen pencil. -/
theorem checks_of_legal {s : State}
    (h0 : s.pencil0 ∈ MAZEPOINT) (h1 : s.pencil1 ∈ MAZEPOINT)
    {chosen : Nat} (hch : chosen = 0 ∨ chosen = 1) :
    c5chk s chosen (determineNextStates s chosen).next
        (determineNextStates s chosen).alt (determineNextStates s chosen).path = true ∧
    c6chk s chosen (determineNextStates s chosen).next = true ∧
    c7chk s chosen (determineNextStates s chosen).next
        (determineNextStates s chosen).alt = true ∧
    c10chk s chosen (determineNextStates s chosen).next
        (determineNextStates s chosen).alt (determineNextStates s chosen).path = true := by
  obtain ⟨hlt, hdec⟩ := decodeState_computeIndex h0 h1
  have h := (tableOK_parts hlt).2 chosen hch
  rw [hdec] at h
  simpa [pencilChecks, Bool.and_eq_true, and_assoc] using h

/-- C5: on any configuration with both pencils on legal maze points and
either chosen pencil, a chosen pencil on box 55 yields the LUGNUT path
with primary successor at 15 and an alternate equal to the primary except
that the chosen pencil sits at 7; a chosen pencil on any other box never
yields an alternate successor. -/
theorem box55_alternate (s : State)
    (h0 : s.pencil0 ∈ MAZEPOINT) (h1 : s.pencil1 ∈ MAZEPOINT)
    (chosen : Nat) (hch : chosen = 0 ∨ chosen = 1) :
    (pencilAt s chosen = 55 →
      (determineNextStates s chosen).path = PATH_LUGNUT ∧
      pencilAt (determineNextStates s chosen).next chosen = 15 ∧
      (determineNextStates s chosen).alt
        = some (setPencil (determineNextStates s chosen).next chosen 7)) ∧
    (pencilAt s chosen ≠ 55 → (determineNextStates s chosen).alt = none) := by
  have hc5 := (checks_of_legal h0 h1 hch).1
  constructor
  · intro h55
    rw [c5chk, if_pos h55] at hc5
    simp only [Bool.and_eq_true, beq_iff_eq] at hc5
    exact ⟨hc5.1.1, hc5.1.2, hc5.2⟩
  · intro h55
    rw [c5chk, if_neg h55] at hc5
    simpa using hc5

/-- Witness for C5 with pencil 0 chosen on box 55. -/
theorem box55_alternate_witness :
    (determineNextStates ⟨55, 1, false, false, false⟩ 0).path = PATH_LUGNUT ∧
    pencilAt (determineNextStates ⟨55, 1, false, false, false⟩ 0).next 0 = 15 ∧
    (determineNextStates ⟨55, 1, false, false, false⟩ 0).alt
      = some (setPencil (determineNextStates ⟨55, 1, false, false, false⟩ 0).next 0 7) :=
  (box55_alternate ⟨55, 1, false, false, false⟩ (by decide) (by decide) 0
    (Or.inl rfl)).1 (by decide)

/-- C6: on any configuration with both pencils on legal maze points and
either chosen pencil, a chosen pencil on box 61 moves to box 1 and is
marked moved; with the mode flag clear the other pencil is force-moved to
the yes-path target of its current box and marked moved, and with the
mode flag set the other pencil keeps its box and stays unmarked. -/
theorem box61_crossmove (s : State)
    (h0 : s.pencil0 ∈ MAZEPOINT) (h1 : s.pencil1 ∈ MAZEPOINT)
    (chosen : Nat) (hch : chosen = 0 ∨ chosen = 1)
    (h61 : pencilAt s chosen = 61) :
    pencilAt (determineNextStates s chosen).next chosen = 1 ∧
    movedAt (determineNextStates s chosen).next chosen = true ∧
    (s.rule60 = false →
      pencilAt (determineNextStates s chosen).next (otherPencil chosen)
        = getYesPath (pencilAt s (otherPencil chosen)) ∧
      movedAt (determineNextStates s chosen).next (otherPencil chosen) = true) ∧
    (s.rule60 = true →
      pencilAt (determineNextStates s chosen).next (otherPencil chosen)
        = pencilAt s (otherPencil chosen) ∧
      movedAt (determineNextStates s chosen).next (otherPencil chosen) = false) := by
  have hc6 := (checks_of_legal h0 h1 hch).2.1
  rw [c6chk, if_pos h61] at hc6
  simp only [Bool.and_eq_true, beq_iff_eq] at hc6
  refine ⟨hc6.1.1, hc6.1.2, fun hr => ?_, fun hr => ?_⟩
  · have h3 := hc6.2
    rw [if_neg (by simp [hr])] at h3
    simp only [Bool.and_eq_true, beq_iff_eq] at h3
    exact h3
  · have h3 := hc6.2
    rw [if_pos hr] at h3
    simp only [Bool.and_eq_true, beq_iff_eq] at h3
    exact ⟨h3.1.1, h3.1.2⟩

/-- Witness for C6 with pencil 0 chosen on box 61, pencil 1 on box 5. -/
theorem box61_crossmove_witness :
    pencilAt (determineNextStates ⟨61, 5, false, false, false⟩ 0).next 0 = 1 ∧
    movedAt (determineNextStates ⟨61, 5, false, false, false⟩ 0).next 0 = true ∧
    ((false : Bool) = false →
      pencilAt (determineNextStates ⟨61, 5, false, false, false⟩ 0).next (otherPencil 0)
        = getYesPath (pencilAt ⟨61, 5, false, false, false⟩ (otherPencil 0)) ∧
      movedAt (determineNextStates ⟨61, 5, false, false, false⟩ 0).next
        (otherPencil 0) = true) ∧
    ((false : Bool) = true →
      pencilAt (determineNextStates ⟨61, 5, false, false, false⟩ 0).next (otherPencil 0)
        = pencilAt ⟨61, 5, false, false, false⟩ (otherPencil 0) ∧
      movedAt (determineNextStates ⟨61, 5, false, false, false⟩ 0).next
        (otherPencil 0) = false) :=
  box61_crossmove ⟨61, 5, false, false, false⟩ (by decide) (by decide) 0
    (Or.inl rfl) (by decide)

/-- C7: on any configuration with both pencils on legal maze points and
either chosen pencil, the primary successor and any alternate successor
carry the mode flag of the input, except that a chosen pencil on box 60
sets it and on box 65 clears it; hence a set flag survives every
evaluation whose chosen pencil is not on box 65. -/
theorem mode_flag_rule (s : State)
    (h0 : s.pencil0 ∈ MAZEPOINT) (h1 : s.pencil1 ∈ MAZEPOINT)
    (chosen : Nat) (hch : chosen = 0 ∨ chosen = 1) :
    (determineNextStates s chosen).next.rule60
      = (if pencilAt s chosen = 60 then true
         else if pencilAt s chosen = 65 then false else s.rule60) ∧
    (∀ x, (determineNextStates s chosen).alt = some x →
      x.rule60 = (if pencilAt s chosen = 60 then true
         else if pencilAt s chosen = 65 then false else s.rule60)) ∧
    (s.rule60 = true → pencilAt s chosen ≠ 65 →
      (determineNextStates s chosen).next.rule60 = true) := by
  have hc7 := (checks_of_legal h0 h1 hch).2.2.1
  rw [c7chk.eq_def] at hc7
  simp only [Bool.and_eq_true, beq_iff_eq] at hc7
  refine ⟨hc7.1, fun x hx => ?_, fun hr h65 => ?_⟩
  · have h2 := hc7.2
    rw [hx] at h2
    simpa using h2
  · rw [hc7.1]
    by_cases h60 : pencilAt s chosen = 60 <;> simp [h60, h65, hr]

/-- Witness for C7 with pencil 0 chosen on box 60: the successor mode
flag follows the source formula at that input. -/
theorem mode_flag_rule_witness :
    (determineNextStates ⟨60, 1, false, false, false⟩ 0).next.rule60
      = (if pencilAt ⟨60, 1, false, false, false⟩ 0 = 60 then true
         else if pencilAt ⟨60, 1, false, false, false⟩ 0 = 65 then false
         else (false : Bool)) :=
  (mode_flag_rule ⟨60, 1, false, false, false⟩ (by decide) (by decide) 0 (Or.inl rfl)).1

/-- C10 counterexample: the deadlock evaluation (both pencils on box 26,
mode flag clear) produces a successor whose acting pencil's movement flag
is NOT set, refuting "sets the acting token's movement flag true ...
including the DEADLOCK ... outcomes". -/
theorem movement_claim_false :
    (determineNextStates ⟨26, 26, false, false, false⟩ 0).path = PATH_NONE ∧
    movedAt (determineNextStates ⟨26, 26, false, false, false⟩ 0).next 0 = false ∧
    movedAt (determineNextStates ⟨26, 26, false, false, false⟩ 0).next 1 = false := by
  decide

/-- C10 (amended): on any configuration with both pencils on legal maze
points and either chosen pencil, a DEADLOCK outcome leaves both movement
flags cleared; every other outcome marks the chosen pencil moved and
marks the other pencil moved exactly in the box-61 cross move (chosen
pencil on 61 with the mode flag clear); an alternate successor marks the
chosen pencil only. -/
theorem movement_flags (s : State)
    (h0 : s.pencil0 ∈ MAZEPOINT) (h1 : s.pencil1 ∈ MAZEPOINT)
    (chosen : Nat) (hch : chosen = 0 ∨ chosen = 1) :
    ((determineNextStates s chosen).path = PATH_NONE →
      (determineNextStates s chosen).next.moved0 = false ∧
      (determineNextStates s chosen).next.moved1 = false) ∧
    ((determineNextStates s chosen).path ≠ PATH_NONE →
      movedAt (determineNextStates s chosen).next chosen = true ∧
      movedAt (determineNextStates s chosen).next (otherPencil chosen)
        = ((pencilAt s chosen == 61) && !s.rule60)) ∧
    (∀ x, (determineNextStates s chosen).alt = some x →
      movedAt x chosen = true ∧ movedAt x (otherPencil chosen) = false) := by
  have hc10 := (checks_of_legal h0 h1 hch).2.2.2
  rw [c10chk.eq_def] at hc10
  rw [Bool.and_eq_true] at hc10
  obtain ⟨hA, hB⟩ := hc10
  refine ⟨fun hp => ?_, fun hp => ?_, fun x hx => ?_⟩
  · rw [if_pos (by simp [hp] :
      ((determineNextStates s chosen).path == PATH_NONE) = true)] at hA
    simpa using hA
  · rw [if_neg (by simp [hp] :
      ¬((determineNextStates s chosen).path == PATH_NONE) = true)] at hA
    simp only [Bool.and_eq_true, beq_iff_eq] at hA
    exact hA
  · rw [hx] at hB
    simpa using hB

/-- Witness for C10 (amended) with pencil 0 chosen on box 1 (a YES/NO
rule, not a deadlock). -/
theorem movement_flags_witness :
    movedAt (determineNextStates ⟨1, 7, false, false, false⟩ 0).next 0 = true ∧
    movedAt (determineNextStates ⟨1, 7, false, false, false⟩ 0).next (otherPencil 0)
      = ((pencilAt ⟨1, 7, false, false, false⟩ 0 == 61) && !(false : Bool)) :=
  (movement_flags ⟨1, 7, false, false, false⟩ (by decide) (by decide) 0
    (Or.inl rfl)).2.1 (by decide)

end Cows
